import Mathlib

/-!
# Porcupine: the node-list row widget `NodeTreeItem`

A shallow embedding of `src/NodeTreeEditor/NodeTreeItem.cpp`.

* `QString` is `String`.
* A pointer to a `QLineEdit` created by the constructor is the index of that
  line edit in `NodeTreeItem.lineEdits`; a pointer-valued map lookup yields an
  `Option`, `none` standing for the null pointer.
* `Node`, `PortPair` and `Argument` are declared outside the translated files.
  A `Node` value records what the accessors called by `NodeTreeItem.cpp`
  return; every such accessor is an independent field.  The node is observed as
  it is when the item is constructed; changes made to it later by other classes
  are not modelled.
* `int` is a 32-bit two's-complement integer: every `int` operation of the
  source is followed by `wrapInt32` (signed overflow wraps around).
* `qreal` (the coordinate type of `Node::pos()`) is a type parameter; no
  arithmetic is performed on it.
* A method is a function from the receiver's state to its result together with
  the receiver's state afterwards; a method that can dereference a null
  pointer returns an `Option`.
-/

namespace Porcupine

/-! ## Qt value types -/

/-- The value of a 32-bit signed `int` holding the integer `z` after wrap-around. -/
def wrapInt32 (z : Int) : Int := (z + 2147483648) % 4294967296 - 2147483648

/-- Range of a 32-bit signed `int`. -/
def isInt32 (z : Int) : Prop := -2147483648 ≤ z ∧ z ≤ 2147483647

instance (z : Int) : Decidable (isInt32 z) := by unfold isInt32; infer_instance

/-- A `QPoint`: two `int` coordinates. -/
structure QPoint where
  x : Int
  y : Int
deriving DecidableEq, Repr

/-- The `QPoint` difference `p1 - p2`, componentwise on `int`. -/
def QPoint.sub (p1 p2 : QPoint) : QPoint :=
  { x := wrapInt32 (p1.x - p2.x), y := wrapInt32 (p1.y - p2.y) }

/-- A `QJsonValue`; `undefined` is `QJsonValue::Undefined`, the value returned
for a missing key. -/
inductive QJsonValue (qreal : Type) where
  | null : QJsonValue qreal
  | bool (b : Bool) : QJsonValue qreal
  | double (d : qreal) : QJsonValue qreal
  | string (s : String) : QJsonValue qreal
  | array (a : List (QJsonValue qreal)) : QJsonValue qreal
  | object (o : List (String × QJsonValue qreal)) : QJsonValue qreal
  | undefined : QJsonValue qreal

/-- A `QJsonObject`: its members as key/value pairs with distinct keys.  The
members are observed through `QJsonObject.value` only. -/
abbrev QJsonObject (qreal : Type) := List (String × QJsonValue qreal)

/-- A `QJsonArray`. -/
abbrev QJsonArray (qreal : Type) := List (QJsonValue qreal)

/-- The conversion `QJsonValue::toString()`: the string held, or the empty string
for a value that is not a string. -/
def QJsonValue.toString {qreal : Type} : QJsonValue qreal → String
  | .string s => s
  | _ => ""

/-- The test `QJsonValue::isUndefined()`. -/
def QJsonValue.isUndefined {qreal : Type} : QJsonValue qreal → Bool
  | .undefined => true
  | _ => false

/-- The conversion `QJsonValue::toObject()`: the object held, or an empty object. -/
def QJsonValue.toObject {qreal : Type} : QJsonValue qreal → QJsonObject qreal
  | .object o => o
  | _ => []

/-- The lookup `QJsonObject::contains(key)`. -/
def QJsonObject.contains {qreal : Type} : QJsonObject qreal → String → Bool
  | [], _ => false
  | (k, _) :: rest, key => if k = key then true else QJsonObject.contains rest key

/-- The lookup `QJsonObject::value(key)` (also the const `operator[]`):
`Undefined` when the key is missing. -/
def QJsonObject.value {qreal : Type} : QJsonObject qreal → String → QJsonValue qreal
  | [], _ => .undefined
  | (k, v) :: rest, key => if k = key then v else QJsonObject.value rest key

/-- The removal `QJsonObject::remove(key)`. -/
def QJsonObject.remove {qreal : Type} : QJsonObject qreal → String → QJsonObject qreal
  | [], _ => []
  | (k, v) :: rest, key =>
    if k = key then QJsonObject.remove rest key else (k, v) :: QJsonObject.remove rest key

/-- The insertion `QJsonObject::insert(key, value)`: replaces the member with
that key or adds one; inserting `Undefined` removes the key. -/
def QJsonObject.insert {qreal : Type} (o : QJsonObject qreal) (key : String)
    (v : QJsonValue qreal) : QJsonObject qreal :=
  if v.isUndefined then QJsonObject.remove o key
  else (key, v) :: QJsonObject.remove o key

/-- The non-const `QJsonObject::operator[](key)`: when the key is missing a
`null` member is inserted; the object afterwards. The reference returned
designates the member `key` of that object. -/
def QJsonObject.ref {qreal : Type} (o : QJsonObject qreal) (key : String) :
    QJsonObject qreal :=
  if QJsonObject.contains o key then o else QJsonObject.insert o key .null

/-- The statement `o[key] = v` on a non-const object: `operator[]`, then
assignment through the `QJsonValueRef`. -/
def QJsonObject.assign {qreal : Type} (o : QJsonObject qreal) (key : String)
    (v : QJsonValue qreal) : QJsonObject qreal :=
  QJsonObject.insert (QJsonObject.ref o key) key v

/-- A `QMap<QString, T*>`: the entries as key/pointer pairs with distinct keys. -/
abbrev QMap := List (String × Nat)

/-- The const `QMap::operator[](key)` (same as `value(key)`): the pointer stored,
or the null pointer (`none`) when there is no entry; the map is not changed. -/
def QMap.value : QMap → String → Option Nat
  | [], _ => none
  | (k, v) :: rest, key => if k = key then some v else QMap.value rest key

/-- The statement `m[key] = v` on a non-const map: the entry for `key` is
replaced, or added when there is none. -/
def QMap.assign : QMap → String → Nat → QMap
  | [], key, v => [(key, v)]
  | (k, w) :: rest, key, v =>
    if k = key then (k, v) :: rest else (k, w) :: QMap.assign rest key v

/-- The number of UTF-16 code units of a character: a `QString` counts its
length in these. -/
def QChar.units (c : Char) : Nat := if c.toNat < 65536 then 1 else 2

/-- The length `QString::size()`, in UTF-16 code units. -/
def QString.size (s : String) : Nat := (s.data.map QChar.units).sum

/-- The characters of a string that fit in its first `n` UTF-16 code units. -/
def QString.leftChars : List Char → Nat → List Char
  | [], _ => []
  | c :: cs, n => if QChar.units c ≤ n then c :: QString.leftChars cs (n - QChar.units c) else []

/-- The prefix `QString::left(n)`: the string itself when it has at most `n` code
units.  (Where the cut would fall inside a surrogate pair the pair is left
out; `String` has no value for half a pair.) -/
def QString.left (s : String) (n : Nat) : String := String.mk (QString.leftChars s.data n)

/-- The conversion `QString::number(n, 16)` of a `quint64`. -/
def QString.number16 (n : Nat) : String :=
  String.mk (Nat.toDigits 16 (n % 18446744073709551616))

/-! ## Domain objects (declared outside the translated files) -/

/-- What `NodeTreeItem.cpp` reads from a `PortPair` and its `Argument`. -/
structure PortPair (qreal : Type) where
  /-- The name `getName()`. -/
  name : String
  /-- The file name `getFileName()`. -/
  fileName : String
  /-- The flag `isSecret()`. -/
  secret : Bool
  /-- The pointer `getInputPort()` as an address, 0 for null. -/
  inputPort : Nat
  /-- The pointer `getOutputPort()` as an address, 0 for null. -/
  outputPort : Nat
  /-- The object `getArgument().getJson()`. -/
  argumentJson : QJsonObject qreal
  /-- The flag `getArgument().isIterator()`. -/
  argumentIsIterator : Bool
  /-- The flag `getArgument().isVisible()`. -/
  argumentIsVisible : Bool
  /-- The flag `isVisible()`. -/
  visible : Bool
  /-- The flag `isIterator()`. -/
  iterator : Bool

/-- What `NodeTreeItem.cpp` reads from a `Node`. -/
structure Node (qreal : Type) where
  /-- The identity of the object (its address). -/
  address : Nat
  /-- The name `getName()`. -/
  name : String
  /-- The port pairs `getPorts()`, in order. -/
  ports : List (PortPair qreal)
  /-- The object `getJson()`. -/
  json : QJsonObject qreal
  /-- The coordinates `pos().x()` and `pos().y()`. -/
  pos : qreal × qreal

/-! ## Widgets -/

/-- A `QLineEdit`: the properties the constructor sets. -/
structure QLineEdit where
  text : String
  placeholderText : String
  enabled : Bool
deriving DecidableEq, Repr

/-- The call `new QLineEdit()`. -/
def QLineEdit.new : QLineEdit := { text := "", placeholderText := "", enabled := true }

/-- The property `maxLength` of a `QLineEdit`; the source never changes the
default. -/
def QLineEdit.maxLength : Nat := 32767

/-- The slot `QLineEdit::setText`: the text is cut to `maxLength()`. -/
def QLineEdit.setText (e : QLineEdit) (t : String) : QLineEdit :=
  { e with text := QString.left t QLineEdit.maxLength }

/-- The slot `QWidget::setEnabled`. -/
def QLineEdit.setEnabled (e : QLineEdit) (b : Bool) : QLineEdit := { e with enabled := b }

/-- One row added to the port block by the constructor: its label, its line
edit, the state of its visibility check box and, for a pair with an input
port, of its iterator check box. -/
structure PortRow where
  label : String
  fileName : Nat
  showCheckbox : Bool
  iterateCheckbox : Option Bool
deriving DecidableEq, Repr

/-- The state of a `NodeTreeItem`: its members, the line edits it created, the
rows of its port block and the `QWidget` properties its methods write. -/
structure NodeTreeItem (qreal : Type) where
  m_node : Node qreal
  m_startPosition : QPoint
  m_numberLabel : String
  m_number : Nat
  m_isSelected : Bool
  m_fileNames : QMap
  lineEdits : List QLineEdit
  rows : List PortRow
  pos : QPoint
  objectName : String
  styleSheet : String

/-- Mouse buttons of a `QMouseEvent`. -/
inductive MouseButton where
  | left
  | right
  | middle
  | none
deriving DecidableEq, Repr

/-- A `QMouseEvent`: the button that caused it and the global cursor position. -/
structure QMouseEvent where
  button : MouseButton
  globalPos : QPoint
deriving DecidableEq, Repr

/-- A signal emitted by a `NodeTreeItem`: `moved(NodeTreeItem*)`, carrying the
item it designates. -/
inductive Signal (qreal : Type) where
  | moved (item : NodeTreeItem qreal) : Signal qreal

/-! ## The constructor -/

/-- What the constructor's loop over the port pairs builds: the name-to-line-edit
map, the line edits created so far and the rows added to the port block. -/
structure PortBlock where
  m_fileNames : QMap
  lineEdits : List QLineEdit
  rows : List PortRow
deriving DecidableEq, Repr

/-- One iteration of `foreach(PortPair* pair, _node->getPorts())` in the
constructor.  The line edit is created and stored in `m_fileNames` first; a
secret pair then skips the rest of the body, so its line edit gets no text, no
row and no connection. -/
def ctorStep {qreal : Type} (s : PortBlock) (pair : PortPair qreal) : PortBlock :=
  let handle := s.lineEdits.length
  let fileName : QLineEdit := { QLineEdit.new with placeholderText := "<value>" }
  let fileNames := QMap.assign s.m_fileNames pair.name handle
  let name := pair.fileName
  if pair.secret then
    { m_fileNames := fileNames, lineEdits := s.lineEdits ++ [fileName], rows := s.rows }
  else
    let iterateCheckbox : Option Bool :=
      if pair.inputPort ≠ 0 then some pair.argumentIsIterator else none
    let fileName := if name = "" then fileName else fileName.setText name
    let fileName := fileName.setEnabled pair.argumentIsVisible
    let row : PortRow :=
      { label := pair.name, fileName := handle,
        showCheckbox := pair.argumentIsVisible, iterateCheckbox := iterateCheckbox }
    { m_fileNames := fileNames, lineEdits := s.lineEdits ++ [fileName],
      rows := s.rows ++ [row] }

/-- The constructor `NodeTreeItem::NodeTreeItem(_node, _parent)`: the members as
initialised, then the loop over the port pairs.  Layout, palette and frame
settings have no part in the state modelled.  (Named `construct`: inside the
namespace `NodeTreeItem` a definition of the same name would hide the type.) -/
def NodeTreeItem.construct {qreal : Type} (_node : Node qreal) : NodeTreeItem qreal :=
  let block := _node.ports.foldl ctorStep { m_fileNames := [], lineEdits := [], rows := [] }
  { m_node := _node
    m_startPosition := { x := 0, y := 0 }
    m_numberLabel := Nat.repr 0
    m_number := 0
    m_isSelected := false
    m_fileNames := block.m_fileNames
    lineEdits := block.lineEdits
    rows := block.rows
    pos := { x := 0, y := 0 }
    objectName := ""
    styleSheet := "" }

/-! ## The methods -/

/-- The accessor `NodeTreeItem::getPorts() const`. -/
def NodeTreeItem.getPorts {qreal : Type} (it : NodeTreeItem qreal) : List (PortPair qreal) :=
  it.m_node.ports

/-- The accessor `NodeTreeItem::getNode() const`. -/
def NodeTreeItem.getNode {qreal : Type} (it : NodeTreeItem qreal) : Node qreal :=
  it.m_node

/-- The method `NodeTreeItem::getFileName(_portName) const`: the result and the
item afterwards; `none` when a stored pointer designates no line edit.  The
method is const, so `m_fileNames[_portName]` is the const lookup. -/
def NodeTreeItem.getFileName {qreal : Type} (it : NodeTreeItem qreal) (_portName : String) :
    Option (String × NodeTreeItem qreal) :=
  match QMap.value it.m_fileNames _portName with
  | some handle =>
    match it.lineEdits[handle]? with
    | some lineEdit => some (lineEdit.text, it)
    | none => none
  | none => some ("", it)

/-- The method `NodeTreeItem::isAncestorOf(_item)`, given `Node::hasAncestor`
(`hasAncestor n m` is `n->hasAncestor(m)`): the result and both items afterwards. -/
def NodeTreeItem.isAncestorOf {qreal : Type} (hasAncestor : Node qreal → Node qreal → Bool)
    (it _item : NodeTreeItem qreal) : Bool × NodeTreeItem qreal × NodeTreeItem qreal :=
  (hasAncestor _item.getNode it.m_node, it, _item)

/-- The body of `foreach (const PortPair* port, getPorts())` in `saveToJson`: the
JSON object appended for `port`, or `none` when `m_fileNames[...]` is the null
pointer that `->text()` is then called on.  In
`portJson["value"] = m_fileNames[portJson["name"].toString()]->text()` the right
operand is evaluated first (the order of C++17); `portJson` is not const, so
`portJson["name"]` inserts a `null` member when the argument has no `"name"`. -/
def NodeTreeItem.portToJson {qreal : Type} (it : NodeTreeItem qreal) (port : PortPair qreal) :
    Option (QJsonObject qreal) :=
  let portJson := port.argumentJson
  let portJson := QJsonObject.ref portJson "name"
  match QMap.value it.m_fileNames (QJsonObject.value portJson "name").toString with
  | none => none
  | some handle =>
    match it.lineEdits[handle]? with
    | none => none
    | some lineEdit =>
      let portJson := QJsonObject.assign portJson "value" (.string lineEdit.text)
      let portJson := QJsonObject.assign portJson "inputPort"
        (.string (QString.number16 port.inputPort))
      let portJson := QJsonObject.assign portJson "outputPort"
        (.string (QString.number16 port.outputPort))
      let portJson := QJsonObject.assign portJson "visible" (.bool port.visible)
      let portJson := QJsonObject.assign portJson "iterator" (.bool port.iterator)
      some portJson

/-- The loop of `saveToJson` over the remaining port pairs: the entries appended
to `ports`, in order. -/
def NodeTreeItem.portsToJson {qreal : Type} (it : NodeTreeItem qreal) :
    List (PortPair qreal) → Option (QJsonArray qreal)
  | [] => some []
  | port :: rest =>
    match it.portToJson port with
    | none => none
    | some portJson =>
      match NodeTreeItem.portsToJson it rest with
      | none => none
      | some ports => some (.object portJson :: ports)

/-- The method `NodeTreeItem::saveToJson(o_json) const`: the value of `o_json`
on return and the item afterwards, or `none` when a null pointer is
dereferenced. -/
def NodeTreeItem.saveToJson {qreal : Type} (it : NodeTreeItem qreal) (_o_json : QJsonObject qreal) :
    Option (QJsonObject qreal × NodeTreeItem qreal) :=
  let o_json := it.m_node.json
  let position : QJsonArray qreal := [.double it.m_node.pos.1, .double it.m_node.pos.2]
  let o_json := QJsonObject.assign o_json "position" (.array position)
  match it.portsToJson it.getPorts with
  | none => none
  | some ports => some (QJsonObject.assign o_json "ports" (.array ports), it)

/-- The handler `NodeTreeItem::mousePressEvent`.  (`raise()` changes the stacking
order kept by the parent widget, not the item.) -/
def NodeTreeItem.mousePressEvent {qreal : Type} (it : NodeTreeItem qreal) (_event : QMouseEvent) :
    NodeTreeItem qreal :=
  if _event.button = MouseButton.left then
    { it with m_startPosition := _event.globalPos }
  else it

/-- The handler `NodeTreeItem::mouseMoveEvent`. -/
def NodeTreeItem.mouseMoveEvent {qreal : Type} (it : NodeTreeItem qreal) (_event : QMouseEvent) :
    NodeTreeItem qreal :=
  let delta := QPoint.sub _event.globalPos it.m_startPosition
  { it with
    pos := { x := it.pos.x, y := wrapInt32 (it.pos.y + delta.y) }
    m_startPosition := _event.globalPos }

/-- The handler `NodeTreeItem::mouseReleaseEvent`, given the slots connected to
`moved`: `emit moved(this)` calls them in order, each with the pointer to the
item, before the handler returns.  A slot is what it makes of the item.  The
item afterwards and the signals emitted, in order. -/
def NodeTreeItem.mouseReleaseEvent {qreal : Type} (it : NodeTreeItem qreal) (_event : QMouseEvent)
    (connected : List (NodeTreeItem qreal → NodeTreeItem qreal)) :
    NodeTreeItem qreal × List (Signal qreal) :=
  (connected.foldl (fun item slot => slot item) it, [Signal.moved it])

/-- The method `NodeTreeItem::setNumber(_i)`. -/
def NodeTreeItem.setNumber {qreal : Type} (it : NodeTreeItem qreal) (_i : Nat) :
    NodeTreeItem qreal :=
  { it with m_number := _i, m_numberLabel := Nat.repr _i }

/-- Modelled from the spec: the slot `NodeTreeEditor::nodeMoved(_item)`, of
which the sources have the declaration only.  It "receives signal that _item
just swapped places, so the nodes need to be reordered", in a container that
lists the rows and keeps them ordered; of the item it receives, the model has
it set the number of the row's new place through `setNumber`. -/
def NodeTreeEditor.nodeMoved {qreal : Type} (newNumber : Nat) (_item : NodeTreeItem qreal) :
    NodeTreeItem qreal :=
  _item.setNumber newNumber

/-- The slot `NodeTreeItem::setSelected(_isSelected)`. -/
def NodeTreeItem.setSelected {qreal : Type} (it : NodeTreeItem qreal) (_isSelected : Bool) :
    NodeTreeItem qreal :=
  if _isSelected then
    { it with
      m_isSelected := _isSelected
      objectName := "myObject"
      styleSheet := "#myObject \x7bborder: 2px solid black;\x7d" }
  else
    { it with m_isSelected := _isSelected, styleSheet := "" }

/-! ## What can happen to an item after its construction

The constructor connects signals to slots of the item and of its children;
these connections, the user acting on a displayed row and the public methods
are what changes the state modelled here. -/

/-- The line edit of row `row` gets the text `text`: the user edits it, or the
pair of that row emits `changeFileName(text)`, which the constructor connected
to `setText`.  Only rows of the port block have a line edit that is shown or
connected. -/
def NodeTreeItem.rowSetText {qreal : Type} (it : NodeTreeItem qreal) (row : Nat) (text : String) :
    NodeTreeItem qreal :=
  match it.rows[row]? with
  | none => it
  | some r =>
    match it.lineEdits[r.fileName]? with
    | none => it
    | some lineEdit => { it with lineEdits := it.lineEdits.set r.fileName (lineEdit.setText text) }

/-- The visibility check box of row `row` is toggled to `checked`: the
constructor connected `toggled(bool)` to `setEnabled` of the row's line edit. -/
def NodeTreeItem.rowToggled {qreal : Type} (it : NodeTreeItem qreal) (row : Nat) (checked : Bool) :
    NodeTreeItem qreal :=
  match it.rows[row]? with
  | none => it
  | some r =>
    match it.lineEdits[r.fileName]? with
    | none => it
    | some lineEdit =>
      { it with
        lineEdits := it.lineEdits.set r.fileName (lineEdit.setEnabled checked)
        rows := it.rows.set row { r with showCheckbox := checked } }

/-- The iterator check box of row `row`, when the row has one, is toggled to
`checked` (its `toggled(bool)` goes to the pair's `setAsIterator`). -/
def NodeTreeItem.rowIterateToggled {qreal : Type} (it : NodeTreeItem qreal) (row : Nat)
    (checked : Bool) : NodeTreeItem qreal :=
  match it.rows[row]? with
  | none => it
  | some r =>
    match r.iterateCheckbox with
    | none => it
    | some _ => { it with rows := it.rows.set row { r with iterateCheckbox := some checked } }

/-- Something that happens to an item.  A mouse release comes with the number
that the connected `nodeMoved` slot gives the item, if one is connected. -/
inductive ItemEvent where
  | rowSetText (row : Nat) (text : String)
  | rowToggled (row : Nat) (checked : Bool)
  | rowIterateToggled (row : Nat) (checked : Bool)
  | setSelected (isSelected : Bool)
  | setNumber (i : Nat)
  | mousePress (event : QMouseEvent)
  | mouseMove (event : QMouseEvent)
  | mouseRelease (event : QMouseEvent) (newNumber : Option Nat)
deriving DecidableEq, Repr

/-- The item after one event. -/
def NodeTreeItem.handle {qreal : Type} (it : NodeTreeItem qreal) : ItemEvent → NodeTreeItem qreal
  | .rowSetText row text => it.rowSetText row text
  | .rowToggled row checked => it.rowToggled row checked
  | .rowIterateToggled row checked => it.rowIterateToggled row checked
  | .setSelected b => it.setSelected b
  | .setNumber i => it.setNumber i
  | .mousePress e => it.mousePressEvent e
  | .mouseMove e => it.mouseMoveEvent e
  | .mouseRelease e none => (it.mouseReleaseEvent e []).1
  | .mouseRelease e (some newNumber) =>
    (it.mouseReleaseEvent e [NodeTreeEditor.nodeMoved newNumber]).1

/-- The item constructed for `node`, after the events `events` in order. -/
def NodeTreeItem.run {qreal : Type} (node : Node qreal) (events : List ItemEvent) :
    NodeTreeItem qreal :=
  events.foldl NodeTreeItem.handle (NodeTreeItem.construct node)

/-- A left-button press at `p0` followed by mouse moves at `ps`, in order. -/
def NodeTreeItem.drag {qreal : Type} (it : NodeTreeItem qreal) (p0 : QPoint) (ps : List QPoint) :
    NodeTreeItem qreal :=
  ps.foldl (fun item p => item.mouseMoveEvent { button := MouseButton.none, globalPos := p })
    (it.mousePressEvent { button := MouseButton.left, globalPos := p0 })

/-! ## Auxiliary notions used in the statements -/

/-- The position in `ports` of the last port pair named `name`, if any: the pair
whose line edit the constructor leaves registered under `name`. -/
def lastIndexOfName {qreal : Type} : List (PortPair qreal) → String → Option Nat
  | [], _ => none
  | pair :: rest, name =>
    match lastIndexOfName rest name with
    | some j => some (j + 1)
    | none => if pair.name = name then some 0 else none

/-- What holds of the item constructed for `node` and is kept by every event:
the node and the name-to-line-edit map stay what the constructor made them,
there is one line edit per port pair, the line edit of a secret pair is empty,
every row's line edit belongs to a pair that is not secret, and every pair
that is not secret has a row labelled with its name that shows its line edit. -/
structure ItemInv {qreal : Type} (node : Node qreal) (it : NodeTreeItem qreal) : Prop where
  node_eq : it.m_node = node
  fileNames_eq : it.m_fileNames = (NodeTreeItem.construct node).m_fileNames
  length_eq : it.lineEdits.length = node.ports.length
  secret_empty : ∀ (i : Nat) (pair : PortPair qreal), node.ports[i]? = some pair →
    pair.secret = true → ∃ e, it.lineEdits[i]? = some e ∧ e.text = ""
  rows_shown : ∀ r ∈ it.rows, ∃ pair, node.ports[r.fileName]? = some pair ∧ pair.secret = false
  rows_cover : ∀ (i : Nat) (pair : PortPair qreal), node.ports[i]? = some pair →
    pair.secret = false → ∃ r ∈ it.rows, r.fileName = i ∧ r.label = pair.name

/-- The name under which `saveToJson` looks up the line edit of `port`:
`portJson["name"].toString()`. -/
def PortPair.jsonName {qreal : Type} (port : PortPair qreal) : String :=
  (QJsonObject.value port.argumentJson "name").toString

/-- Whether `m_fileNames[name]` is a non-null pointer to a line edit of the item. -/
def NodeTreeItem.hasLineEdit {qreal : Type} (it : NodeTreeItem qreal) (name : String) : Bool :=
  match QMap.value it.m_fileNames name with
  | some handle => (it.lineEdits[handle]?).isSome
  | none => false

/-- The members that `saveToJson` sets in the entry of `port`: `entry` has them,
"value" being the text of the line edit registered for the argument's name. -/
def PortEntry {qreal : Type} (it : NodeTreeItem qreal) (port : PortPair qreal)
    (entry : QJsonObject qreal) : Prop :=
  ∃ handle lineEdit,
    QMap.value it.m_fileNames (QJsonObject.value port.argumentJson "name").toString = some handle
    ∧ it.lineEdits[handle]? = some lineEdit
    ∧ QJsonObject.value entry "value" = .string lineEdit.text
    ∧ QJsonObject.value entry "inputPort" = .string (QString.number16 port.inputPort)
    ∧ QJsonObject.value entry "outputPort" = .string (QString.number16 port.outputPort)
    ∧ QJsonObject.value entry "visible" = .bool port.visible
    ∧ QJsonObject.value entry "iterator" = .bool port.iterator


/-! ## Concrete nodes used to evaluate the definitions -/

/-- An argument JSON object whose `"name"` is `name`. -/
def sampleArgument (name : String) : QJsonObject Int :=
  [("name", .string name), ("type", .string "file")]

/-- A port pair with the given name, file name, secrecy and argument JSON. -/
def samplePort (name fileName : String) (secret : Bool) (argumentJson : QJsonObject Int) :
    PortPair Int :=
  { name := name, fileName := fileName, secret := secret, inputPort := 255, outputPort := 0,
    argumentJson := argumentJson, argumentIsIterator := false, argumentIsVisible := true,
    visible := true, iterator := false }

/-- A node with the given address and port pairs. -/
def sampleNode (address : Nat) (ports : List (PortPair Int)) : Node Int :=
  { address := address, name := "smooth", ports := ports,
    json := [("title", .string "smooth"), ("position", .null)], pos := (120, -45) }

/-- The conversion `QJsonValue::toArray()`: the array held, or an empty array. -/
def QJsonValue.toArray {qreal : Type} : QJsonValue qreal → QJsonArray qreal
  | .array a => a
  | _ => []

/-- The "value" members of the entries under "ports" of a saved object, in order. -/
def savedValues {qreal : Type} (o : QJsonObject qreal) : List String :=
  (QJsonObject.value o "ports").toArray.map
    (fun entry => (QJsonObject.value entry.toObject "value").toString)

/-- A node with a port pair "in" holding "scan.nii" and a secret port pair
"token" holding "abc"; each argument JSON bears the pair's name. -/
def twoPortNode : Node Int :=
  sampleNode 7 [samplePort "in" "scan.nii" false (sampleArgument "in"),
    samplePort "token" "abc" true (sampleArgument "token")]

/-- The item of `twoPortNode` after the text of its first row became "other.nii". -/
def editedItem : NodeTreeItem Int :=
  NodeTreeItem.run twoPortNode [ItemEvent.rowSetText 0 "other.nii"]

/-- A node with a secret port pair "key" followed by a port pair "key" that
is not secret and holds "id_rsa"; each argument JSON bears the pair's name. -/
def sharedNameNode : Node Int :=
  sampleNode 8 [samplePort "key" "" true (sampleArgument "key"),
    samplePort "key" "id_rsa" false (sampleArgument "key")]

/-- A node with two port pairs named "x", neither secret, holding "first" and
"second"; each argument JSON bears the pair's name. -/
def twinNode : Node Int :=
  sampleNode 9 [samplePort "x" "first" false (sampleArgument "x"),
    samplePort "x" "second" false (sampleArgument "x")]

/-- A file name of 40000 characters. -/
def longFileName : String := String.mk (List.replicate 40000 'a')

/-- A node with one port pair "in", not secret, holding `longFileName`. -/
def longNameNode : Node Int :=
  sampleNode 10 [samplePort "in" longFileName false (sampleArgument "in")]


/-! ## Lemmas on the Qt containers -/

theorem QJsonObject.value_remove {qreal : Type} (o : QJsonObject qreal) (key k : String) :
    QJsonObject.value (QJsonObject.remove o key) k
      = if key = k then .undefined else QJsonObject.value o k := by
  induction o with
  | nil => simp [QJsonObject.remove, QJsonObject.value]
  | cons kv rest ih =>
    obtain ⟨a, v⟩ := kv
    by_cases h1 : a = key
    · subst h1
      by_cases h2 : a = k
      · subst h2
        simp [QJsonObject.remove, ih]
      · simp [QJsonObject.remove, QJsonObject.value, ih, h2]
    · have h3 : ¬ key = a := fun h => h1 h.symm
      by_cases h2 : a = k
      · subst h2
        simp [QJsonObject.remove, QJsonObject.value, h1, h3]
      · simp [QJsonObject.remove, QJsonObject.value, ih, h1, h2]

theorem QJsonObject.value_insert {qreal : Type} (o : QJsonObject qreal) (key k : String)
    (v : QJsonValue qreal) (hv : v.isUndefined = false) :
    QJsonObject.value (QJsonObject.insert o key v) k
      = if key = k then v else QJsonObject.value o k := by
  unfold QJsonObject.insert
  rw [hv]
  by_cases h : key = k
  · simp [QJsonObject.value, h]
  · simp [QJsonObject.value, h, QJsonObject.value_remove]

theorem QJsonObject.value_of_not_contains {qreal : Type} (o : QJsonObject qreal) (key : String)
    (h : QJsonObject.contains o key = false) : QJsonObject.value o key = .undefined := by
  induction o with
  | nil => rfl
  | cons kv rest ih =>
    obtain ⟨a, v⟩ := kv
    by_cases h1 : a = key
    · simp [QJsonObject.contains, h1] at h
    · simp [QJsonObject.contains, h1] at h
      simp [QJsonObject.value, h1, ih h]

theorem QJsonObject.value_ref_ne {qreal : Type} (o : QJsonObject qreal) (key k : String)
    (h : key ≠ k) : QJsonObject.value (QJsonObject.ref o key) k = QJsonObject.value o k := by
  unfold QJsonObject.ref
  split
  · rfl
  · rw [QJsonObject.value_insert o key k .null rfl]; simp [h]

theorem QJsonObject.toString_value_ref {qreal : Type} (o : QJsonObject qreal) (key : String) :
    (QJsonObject.value (QJsonObject.ref o key) key).toString
      = (QJsonObject.value o key).toString := by
  unfold QJsonObject.ref
  by_cases h : QJsonObject.contains o key = true
  · simp [h]
  · have h2 : QJsonObject.contains o key = false := by simpa using h
    rw [if_neg h, QJsonObject.value_insert o key key .null rfl, QJsonObject.value_of_not_contains o key h2]
    simp [QJsonValue.toString]

theorem QJsonObject.value_assign {qreal : Type} (o : QJsonObject qreal) (key k : String)
    (v : QJsonValue qreal) (hv : v.isUndefined = false) :
    QJsonObject.value (QJsonObject.assign o key v) k
      = if key = k then v else QJsonObject.value o k := by
  unfold QJsonObject.assign
  rw [QJsonObject.value_insert _ _ _ _ hv]
  by_cases h : key = k
  · simp [h]
  · simp [h, QJsonObject.value_ref_ne o key k h]

theorem QMap.lookup_assign (m : QMap) (key k : String) (v : Nat) :
    QMap.value (QMap.assign m key v) k = if key = k then some v else QMap.value m k := by
  induction m with
  | nil => simp [QMap.assign, QMap.value]
  | cons kv rest ih =>
    obtain ⟨a, w⟩ := kv
    by_cases h1 : a = key
    · subst h1
      by_cases h2 : a = k
      · simp [QMap.assign, QMap.value, h2]
      · simp [QMap.assign, QMap.value, h2]
    · have h3 : ¬ key = a := fun h => h1 h.symm
      by_cases h2 : a = k
      · subst h2
        simp [QMap.assign, QMap.value, h1, h3]
      · simp [QMap.assign, QMap.value, ih, h1, h2]


/-! ## Lemmas on `QString::left` -/

theorem QString.leftChars_of_fits (cs : List Char) (n : Nat)
    (h : (cs.map QChar.units).sum ≤ n) : QString.leftChars cs n = cs := by
  induction cs generalizing n with
  | nil => rfl
  | cons c rest ih =>
    simp only [List.map_cons, List.sum_cons] at h
    have h1 : QChar.units c ≤ n := by omega
    simp only [QString.leftChars, h1, if_true]
    rw [ih (n - QChar.units c) (by omega)]

theorem QString.left_of_size_le (s : String) (n : Nat) (h : QString.size s ≤ n) :
    QString.left s n = s := by
  unfold QString.left
  rw [QString.leftChars_of_fits s.data n h]

theorem QString.size_leftChars_le (cs : List Char) (n : Nat) :
    ((QString.leftChars cs n).map QChar.units).sum ≤ n := by
  induction cs generalizing n with
  | nil => simp [QString.leftChars]
  | cons c rest ih =>
    by_cases h1 : QChar.units c ≤ n
    · simp only [QString.leftChars, h1, if_true, List.map_cons, List.sum_cons]
      have := ih (n - QChar.units c)
      omega
    · simp [QString.leftChars, h1]

theorem QString.size_left_le (s : String) (n : Nat) : QString.size (QString.left s n) ≤ n := by
  unfold QString.size QString.left
  exact QString.size_leftChars_le s.data n

theorem QString.left_empty (n : Nat) : QString.left "" n = "" := rfl

/-! ## The constructor's loop -/

theorem ctorStep_fileNames {qreal : Type} (s : PortBlock) (pair : PortPair qreal) :
    (ctorStep s pair).m_fileNames = QMap.assign s.m_fileNames pair.name s.lineEdits.length := by
  unfold ctorStep
  by_cases h : pair.secret = true <;> simp [h]

theorem ctorStep_lineEdits {qreal : Type} (s : PortBlock) (pair : PortPair qreal) :
    ∃ e : QLineEdit, (ctorStep s pair).lineEdits = s.lineEdits ++ [e]
      ∧ e.text = if pair.secret then ""
          else QString.left pair.fileName QLineEdit.maxLength := by
  unfold ctorStep
  by_cases h : pair.secret = true
  · simp [h, QLineEdit.new]
  · by_cases h2 : pair.fileName = ""
    · simp [h, h2, QLineEdit.new, QLineEdit.setEnabled, QString.left_empty]
    · simp [h, h2, QLineEdit.new, QLineEdit.setEnabled, QLineEdit.setText]

theorem ctorStep_rows {qreal : Type} (s : PortBlock) (pair : PortPair qreal) (r : PortRow)
    (hr : r ∈ (ctorStep s pair).rows) :
    r ∈ s.rows ∨ (r.fileName = s.lineEdits.length ∧ pair.secret = false) := by
  unfold ctorStep at hr
  by_cases h : pair.secret = true
  · simp [h] at hr; exact Or.inl hr
  · simp [h] at hr
    rcases hr with hr | hr
    · exact Or.inl hr
    · right; subst hr; simpa using h

theorem ctorLoop_fileNames {qreal : Type} (ports : List (PortPair qreal)) (s : PortBlock)
    (name : String) :
    QMap.value (ports.foldl ctorStep s).m_fileNames name
      = match lastIndexOfName ports name with
        | some j => some (s.lineEdits.length + j)
        | none => QMap.value s.m_fileNames name := by
  induction ports generalizing s with
  | nil => simp [lastIndexOfName]
  | cons pair rest ih =>
    rw [List.foldl_cons, ih]
    obtain ⟨e, he, -⟩ := ctorStep_lineEdits s pair
    cases hl : lastIndexOfName rest name with
    | some j =>
      simp [lastIndexOfName, hl, he]; omega
    | none =>
      by_cases hn : pair.name = name
      · simp [lastIndexOfName, hl, hn, ctorStep_fileNames, QMap.lookup_assign]
      · simp [lastIndexOfName, hl, hn, ctorStep_fileNames, QMap.lookup_assign]

theorem ctorLoop_lineEdits {qreal : Type} (ports : List (PortPair qreal)) (s : PortBlock) :
    ∃ es : List QLineEdit, (ports.foldl ctorStep s).lineEdits = s.lineEdits ++ es
      ∧ es.length = ports.length
      ∧ ∀ (i : Nat) (pair : PortPair qreal), ports[i]? = some pair →
          ∃ e, es[i]? = some e ∧ e.text = if pair.secret then ""
            else QString.left pair.fileName QLineEdit.maxLength := by
  induction ports generalizing s with
  | nil => exact ⟨[], by simp⟩
  | cons pair rest ih =>
    obtain ⟨e, he, hte⟩ := ctorStep_lineEdits s pair
    obtain ⟨es, hes, hlen, htxt⟩ := ih (ctorStep s pair)
    refine ⟨e :: es, ?_, by simp [hlen], ?_⟩
    · rw [List.foldl_cons, hes, he]; simp
    · intro i q hq
      cases i with
      | zero =>
        simp at hq; subst hq
        exact ⟨e, by simp, hte⟩
      | succ k =>
        simp at hq
        simpa using htxt k q hq

theorem ctorLoop_rows {qreal : Type} (ports : List (PortPair qreal)) (s : PortBlock)
    (r : PortRow) (hr : r ∈ (ports.foldl ctorStep s).rows) :
    r ∈ s.rows ∨ ∃ i pair, r.fileName = s.lineEdits.length + i ∧ ports[i]? = some pair
      ∧ pair.secret = false := by
  induction ports generalizing s with
  | nil => exact Or.inl (by simpa using hr)
  | cons pair rest ih =>
    rw [List.foldl_cons] at hr
    obtain ⟨e, he, -⟩ := ctorStep_lineEdits s pair
    rcases ih (ctorStep s pair) hr with h | ⟨i, q, hi, hq, hs⟩
    · rcases ctorStep_rows s pair r h with h2 | ⟨h2, h3⟩
      · exact Or.inl h2
      · exact Or.inr ⟨0, pair, by simpa using h2, by simp, h3⟩
    · refine Or.inr ⟨i + 1, q, ?_, by simpa using hq, hs⟩
      rw [hi, he]; simp; omega

theorem ctorStep_rows_keep {qreal : Type} (s : PortBlock) (pair : PortPair qreal) (r : PortRow)
    (hr : r ∈ s.rows) : r ∈ (ctorStep s pair).rows := by
  unfold ctorStep
  by_cases h : pair.secret = true
  · simpa [h] using hr
  · simp [h]; exact Or.inl hr

theorem ctorStep_rows_new {qreal : Type} (s : PortBlock) (pair : PortPair qreal)
    (hs : pair.secret = false) :
    ∃ r ∈ (ctorStep s pair).rows, r.fileName = s.lineEdits.length ∧ r.label = pair.name := by
  unfold ctorStep
  simp only [hs, Bool.false_eq_true, if_false]
  exact ⟨_, List.mem_append_right _ (List.mem_singleton_self _), rfl, rfl⟩

theorem ctorLoop_rows_keep {qreal : Type} (ports : List (PortPair qreal)) (s : PortBlock)
    (r : PortRow) (hr : r ∈ s.rows) : r ∈ (ports.foldl ctorStep s).rows := by
  induction ports generalizing s with
  | nil => exact hr
  | cons pair rest ih =>
    rw [List.foldl_cons]
    exact ih _ (ctorStep_rows_keep s pair r hr)

theorem ctorLoop_rows_cover {qreal : Type} (ports : List (PortPair qreal)) (s : PortBlock)
    (i : Nat) (pair : PortPair qreal) (hp : ports[i]? = some pair) (hs : pair.secret = false) :
    ∃ r ∈ (ports.foldl ctorStep s).rows,
      r.fileName = s.lineEdits.length + i ∧ r.label = pair.name := by
  induction ports generalizing s i with
  | nil => simp at hp
  | cons p rest ih =>
    rw [List.foldl_cons]
    obtain ⟨e, he, -⟩ := ctorStep_lineEdits s p
    cases i with
    | zero =>
      simp at hp; subst hp
      obtain ⟨r, hr, hf, hl⟩ := ctorStep_rows_new s p hs
      exact ⟨r, ctorLoop_rows_keep rest _ r hr, by simpa using hf, hl⟩
    | succ k =>
      simp at hp
      obtain ⟨r, hr, hf, hl⟩ := ih (ctorStep s p) k hp
      refine ⟨r, hr, ?_, hl⟩
      rw [hf, he]; simp; omega

/-! ## The last port pair bearing a name -/

theorem lastIndexOfName_none {qreal : Type} (ports : List (PortPair qreal)) (name : String)
    (h : lastIndexOfName ports name = none) : ∀ pair ∈ ports, pair.name ≠ name := by
  induction ports with
  | nil => simp
  | cons p rest ih =>
    cases hl : lastIndexOfName rest name with
    | some j => simp [lastIndexOfName, hl] at h
    | none =>
      by_cases hn : p.name = name
      · simp [lastIndexOfName, hl, hn] at h
      · intro q hq
        rcases List.mem_cons.mp hq with rfl | hq
        · exact hn
        · exact ih hl q hq

theorem lastIndexOfName_some {qreal : Type} (ports : List (PortPair qreal)) (name : String)
    (j : Nat) (h : lastIndexOfName ports name = some j) :
    ∃ pair, ports[j]? = some pair ∧ pair.name = name
      ∧ ∀ k q, j < k → ports[k]? = some q → q.name ≠ name := by
  induction ports generalizing j with
  | nil => simp [lastIndexOfName] at h
  | cons p rest ih =>
    cases hl : lastIndexOfName rest name with
    | some i =>
      simp [lastIndexOfName, hl] at h
      subst h
      obtain ⟨q, hq, hqn, hlater⟩ := ih i hl
      refine ⟨q, by simpa using hq, hqn, ?_⟩
      intro k q2 hk hq2
      cases k with
      | zero => omega
      | succ k2 =>
        simp at hq2
        exact hlater k2 q2 (by omega) hq2
    | none =>
      by_cases hn : p.name = name
      · simp [lastIndexOfName, hl, hn] at h
        subst h
        refine ⟨p, by simp, hn, ?_⟩
        intro k q2 hk hq2
        cases k with
        | zero => omega
        | succ k2 =>
          simp at hq2
          exact lastIndexOfName_none rest name hl q2 (List.getElem?_mem hq2)
      · simp [lastIndexOfName, hl, hn] at h

theorem lastIndexOfName_isSome {qreal : Type} (ports : List (PortPair qreal)) (name : String)
    (pair : PortPair qreal) (hmem : pair ∈ ports) (hn : pair.name = name) :
    ∃ j, lastIndexOfName ports name = some j := by
  cases hl : lastIndexOfName ports name with
  | some j => exact ⟨j, rfl⟩
  | none => exact absurd hn (lastIndexOfName_none ports name hl pair hmem)


/-! ## The constructed item and what events keep -/

theorem construct_fileNames {qreal : Type} (node : Node qreal) (name : String) :
    QMap.value (NodeTreeItem.construct node).m_fileNames name
      = lastIndexOfName node.ports name := by
  unfold NodeTreeItem.construct
  simp only
  rw [ctorLoop_fileNames]
  cases lastIndexOfName node.ports name <;> simp [QMap.value]

theorem construct_lineEdits {qreal : Type} (node : Node qreal) :
    (NodeTreeItem.construct node).lineEdits.length = node.ports.length
      ∧ ∀ (i : Nat) (pair : PortPair qreal), node.ports[i]? = some pair →
          ∃ e, (NodeTreeItem.construct node).lineEdits[i]? = some e
            ∧ e.text = if pair.secret then ""
                else QString.left pair.fileName QLineEdit.maxLength := by
  obtain ⟨es, hes, hlen, htxt⟩ :=
    ctorLoop_lineEdits node.ports { m_fileNames := [], lineEdits := [], rows := [] }
  have h : (NodeTreeItem.construct node).lineEdits = es := by
    unfold NodeTreeItem.construct
    simpa using hes
  rw [h]
  exact ⟨hlen, htxt⟩

theorem construct_inv {qreal : Type} (node : Node qreal) :
    ItemInv node (NodeTreeItem.construct node) where
  node_eq := rfl
  fileNames_eq := rfl
  length_eq := (construct_lineEdits node).1
  secret_empty := by
    intro i pair hp hs
    obtain ⟨e, he, ht⟩ := (construct_lineEdits node).2 i pair hp
    exact ⟨e, he, by simpa [hs] using ht⟩
  rows_shown := by
    intro r hr
    have hr2 : r ∈ (node.ports.foldl ctorStep
        { m_fileNames := [], lineEdits := [], rows := [] }).rows := hr
    rcases ctorLoop_rows node.ports _ r hr2 with h | ⟨i, pair, hi, hp, hs⟩
    · simp at h
    · refine ⟨pair, ?_, hs⟩
      have : r.fileName = i := by simpa using hi
      rw [this]; exact hp
  rows_cover := by
    intro i pair hp hs
    obtain ⟨r, hr, hf, hl⟩ := ctorLoop_rows_cover node.ports
      { m_fileNames := [], lineEdits := [], rows := [] } i pair hp hs
    exact ⟨r, hr, by simpa using hf, hl⟩

theorem rows_set_cover (rows : List PortRow) (n : Nat) (old new : PortRow)
    (hold : rows[n]? = some old) (hf : new.fileName = old.fileName)
    (hl : new.label = old.label) (i : Nat) (name : String)
    (h : ∃ r ∈ rows, r.fileName = i ∧ r.label = name) :
    ∃ r ∈ rows.set n new, r.fileName = i ∧ r.label = name := by
  obtain ⟨r, hr, hri, hrn⟩ := h
  obtain ⟨m, hm⟩ := List.mem_iff_getElem?.mp hr
  by_cases hmn : n = m
  · subst hmn
    rw [hold] at hm; cases hm
    have hlt : n < rows.length := (List.getElem?_eq_some.mp hold).1
    refine ⟨new, List.getElem?_mem (List.getElem?_set_self hlt), ?_, ?_⟩
    · rw [hf]; exact hri
    · rw [hl]; exact hrn
  · have hm2 : (rows.set n new)[m]? = some r := by
      rw [List.getElem?_set_ne hmn]; exact hm
    exact ⟨r, List.getElem?_mem hm2, hri, hrn⟩

theorem inv_set_lineEdit {qreal : Type} (node : Node qreal) (it : NodeTreeItem qreal)
    (h : ItemInv node it) (r : PortRow) (hr : r ∈ it.rows) (e : QLineEdit)
    (rows : List PortRow)
    (hrows : ∀ q ∈ rows, ∃ pair, node.ports[q.fileName]? = some pair ∧ pair.secret = false)
    (hcover : ∀ (i : Nat) (pair : PortPair qreal), node.ports[i]? = some pair →
      pair.secret = false → ∃ q ∈ rows, q.fileName = i ∧ q.label = pair.name) :
    ItemInv node { it with lineEdits := it.lineEdits.set r.fileName e, rows := rows } where
  node_eq := h.node_eq
  fileNames_eq := h.fileNames_eq
  length_eq := by simpa using h.length_eq
  secret_empty := by
    intro i pair hp hs
    obtain ⟨q, hq, hqs⟩ := h.rows_shown r hr
    have hne : r.fileName ≠ i := by
      intro heq
      rw [heq, hp] at hq
      cases hq
      rw [hs] at hqs
      exact Bool.noConfusion hqs
    obtain ⟨e2, he2, ht2⟩ := h.secret_empty i pair hp hs
    exact ⟨e2, by simpa [List.getElem?_set_ne hne] using he2, ht2⟩
  rows_shown := hrows
  rows_cover := hcover

theorem handle_inv {qreal : Type} (node : Node qreal) (it : NodeTreeItem qreal)
    (h : ItemInv node it) (event : ItemEvent) : ItemInv node (it.handle event) := by
  cases event with
  | rowSetText row text =>
    simp only [NodeTreeItem.handle, NodeTreeItem.rowSetText]
    cases hrow : it.rows[row]? with
    | none => exact h
    | some r =>
      dsimp only
      cases hle : it.lineEdits[r.fileName]? with
      | none => exact h
      | some lineEdit =>
        exact inv_set_lineEdit node it h r (List.getElem?_mem hrow) _ it.rows h.rows_shown
          h.rows_cover
  | rowToggled row checked =>
    simp only [NodeTreeItem.handle, NodeTreeItem.rowToggled]
    cases hrow : it.rows[row]? with
    | none => exact h
    | some r =>
      dsimp only
      cases hle : it.lineEdits[r.fileName]? with
      | none => exact h
      | some lineEdit =>
        refine inv_set_lineEdit node it h r (List.getElem?_mem hrow) _ _ ?_ ?_
        · intro q hq
          rcases List.mem_or_eq_of_mem_set hq with hq | hq
          · exact h.rows_shown q hq
          · subst hq
            exact h.rows_shown r (List.getElem?_mem hrow)
        · intro i pair hp hs
          exact rows_set_cover it.rows row r { r with showCheckbox := checked } hrow rfl rfl i
            pair.name (h.rows_cover i pair hp hs)
  | rowIterateToggled row checked =>
    simp only [NodeTreeItem.handle, NodeTreeItem.rowIterateToggled]
    cases hrow : it.rows[row]? with
    | none => exact h
    | some r =>
      dsimp only
      cases hit : r.iterateCheckbox with
      | none => exact h
      | some old =>
        refine ⟨h.node_eq, h.fileNames_eq, h.length_eq, h.secret_empty, ?_, ?_⟩
        · intro q hq
          rcases List.mem_or_eq_of_mem_set hq with hq | hq
          · exact h.rows_shown q hq
          · subst hq
            exact h.rows_shown r (List.getElem?_mem hrow)
        · intro i pair hp hs
          exact rows_set_cover it.rows row r { r with iterateCheckbox := some checked } hrow
            rfl rfl i pair.name (h.rows_cover i pair hp hs)
  | setSelected b =>
    cases b
    · exact ⟨h.node_eq, h.fileNames_eq, h.length_eq, h.secret_empty, h.rows_shown, h.rows_cover⟩
    · exact ⟨h.node_eq, h.fileNames_eq, h.length_eq, h.secret_empty, h.rows_shown, h.rows_cover⟩
  | setNumber i => exact ⟨h.node_eq, h.fileNames_eq, h.length_eq, h.secret_empty, h.rows_shown, h.rows_cover⟩
  | mousePress e =>
    simp only [NodeTreeItem.handle, NodeTreeItem.mousePressEvent]
    split
    · exact ⟨h.node_eq, h.fileNames_eq, h.length_eq, h.secret_empty, h.rows_shown, h.rows_cover⟩
    · exact h
  | mouseMove e => exact ⟨h.node_eq, h.fileNames_eq, h.length_eq, h.secret_empty, h.rows_shown, h.rows_cover⟩
  | mouseRelease e newNumber =>
    cases newNumber with
    | none => exact h
    | some k =>
      exact ⟨h.node_eq, h.fileNames_eq, h.length_eq, h.secret_empty, h.rows_shown, h.rows_cover⟩

theorem foldl_handle_inv {qreal : Type} (node : Node qreal) (events : List ItemEvent)
    (it : NodeTreeItem qreal) (h : ItemInv node it) :
    ItemInv node (events.foldl NodeTreeItem.handle it) := by
  induction events generalizing it with
  | nil => exact h
  | cons event rest ih => exact ih _ (handle_inv node it h event)

theorem run_inv {qreal : Type} (node : Node qreal) (events : List ItemEvent) :
    ItemInv node (NodeTreeItem.run node events) :=
  foldl_handle_inv node events _ (construct_inv node)

/-- In every item reached from the constructor, a name borne by a port pair has
a line edit registered and any other name has none. -/
theorem run_registered {qreal : Type} (node : Node qreal) (events : List ItemEvent)
    (name : String) :
    (∀ pair ∈ node.ports, pair.name = name →
      ∃ j q e, lastIndexOfName node.ports name = some j
        ∧ QMap.value (NodeTreeItem.run node events).m_fileNames name = some j
        ∧ node.ports[j]? = some q ∧ q.name = name
        ∧ (∀ (k : Nat) (q2 : PortPair qreal), j < k → node.ports[k]? = some q2 → q2.name ≠ name)
        ∧ (NodeTreeItem.run node events).lineEdits[j]? = some e)
    ∧ ((∀ pair ∈ node.ports, pair.name ≠ name) →
        QMap.value (NodeTreeItem.run node events).m_fileNames name = none) := by
  have hinv := run_inv node events
  constructor
  · intro pair hmem hn
    obtain ⟨j, hj⟩ := lastIndexOfName_isSome node.ports name pair hmem hn
    obtain ⟨q, hq, hqn, hlater⟩ := lastIndexOfName_some node.ports name j hj
    have hlt : j < (NodeTreeItem.run node events).lineEdits.length := by
      rw [hinv.length_eq]
      exact (List.getElem?_eq_some.mp hq).1
    refine ⟨j, q, (NodeTreeItem.run node events).lineEdits[j], hj, ?_, hq, hqn, hlater, ?_⟩
    · rw [hinv.fileNames_eq, construct_fileNames, hj]
    · exact List.getElem?_eq_getElem hlt
  · intro hno
    rw [hinv.fileNames_eq, construct_fileNames]
    cases hl : lastIndexOfName node.ports name with
    | none => rfl
    | some j =>
      obtain ⟨q, hq, hqn, -⟩ := lastIndexOfName_some node.ports name j hl
      exact absurd hqn (hno q (List.getElem?_mem hq))

/-! ## Serialization -/

theorem portToJson_of_registered {qreal : Type} (it : NodeTreeItem qreal)
    (port : PortPair qreal) (handle : Nat) (lineEdit : QLineEdit)
    (h1 : QMap.value it.m_fileNames (QJsonObject.value port.argumentJson "name").toString
      = some handle)
    (h2 : it.lineEdits[handle]? = some lineEdit) :
    ∃ entry, it.portToJson port = some entry ∧ PortEntry it port entry := by
  unfold NodeTreeItem.portToJson
  simp only [QJsonObject.toString_value_ref, h1, h2]
  refine ⟨_, rfl, handle, lineEdit, h1, h2, ?_⟩
  simp [QJsonObject.value_assign, QJsonValue.isUndefined]

theorem portsToJson_of_registered {qreal : Type} (it : NodeTreeItem qreal)
    (ports : List (PortPair qreal))
    (hreg : ∀ port ∈ ports, ∃ handle lineEdit,
      QMap.value it.m_fileNames (QJsonObject.value port.argumentJson "name").toString
        = some handle ∧ it.lineEdits[handle]? = some lineEdit) :
    ∃ entries, it.portsToJson ports = some entries ∧ entries.length = ports.length
      ∧ ∀ (i : Nat) (port : PortPair qreal), ports[i]? = some port →
          ∃ entry, entries[i]? = some (.object entry) ∧ PortEntry it port entry := by
  induction ports with
  | nil => exact ⟨[], rfl, rfl, by simp⟩
  | cons p rest ih =>
    obtain ⟨handle, lineEdit, h1, h2⟩ := hreg p (List.mem_cons_self p rest)
    obtain ⟨entry, he, hentry⟩ := portToJson_of_registered it p handle lineEdit h1 h2
    obtain ⟨entries, hes, hlen, hall⟩ :=
      ih (fun port hp => hreg port (List.mem_cons_of_mem p hp))
    refine ⟨.object entry :: entries, ?_, by simp [hlen], ?_⟩
    · simp [NodeTreeItem.portsToJson, he, hes]
    · intro i port hp
      cases i with
      | zero =>
        simp at hp; subst hp
        exact ⟨entry, by simp, hentry⟩
      | succ k =>
        simp at hp
        simpa using hall k port hp

theorem saveToJson_of_registered {qreal : Type} (it : NodeTreeItem qreal)
    (o_json : QJsonObject qreal)
    (hreg : ∀ port ∈ it.getPorts, ∃ handle lineEdit,
      QMap.value it.m_fileNames (QJsonObject.value port.argumentJson "name").toString
        = some handle ∧ it.lineEdits[handle]? = some lineEdit) :
    ∃ entries,
      it.saveToJson o_json
        = some (QJsonObject.assign
            (QJsonObject.assign it.m_node.json "position"
              (.array [.double it.m_node.pos.1, .double it.m_node.pos.2]))
            "ports" (.array entries), it)
      ∧ entries.length = it.getPorts.length
      ∧ ∀ (i : Nat) (port : PortPair qreal), it.getPorts[i]? = some port →
          ∃ entry, entries[i]? = some (.object entry) ∧ PortEntry it port entry := by
  obtain ⟨entries, hes, hlen, hall⟩ := portsToJson_of_registered it it.getPorts hreg
  exact ⟨entries, by simp [NodeTreeItem.saveToJson, hes], hlen, hall⟩

theorem getFileName_of_registered {qreal : Type} (it : NodeTreeItem qreal) (name : String)
    (handle : Nat) (lineEdit : QLineEdit) (h1 : QMap.value it.m_fileNames name = some handle)
    (h2 : it.lineEdits[handle]? = some lineEdit) :
    it.getFileName name = some (lineEdit.text, it) := by
  simp [NodeTreeItem.getFileName, h1, h2]

theorem hasLineEdit_iff {qreal : Type} (it : NodeTreeItem qreal) (name : String) :
    it.hasLineEdit name = true
      ↔ ∃ handle lineEdit, QMap.value it.m_fileNames name = some handle
          ∧ it.lineEdits[handle]? = some lineEdit := by
  unfold NodeTreeItem.hasLineEdit
  cases h1 : QMap.value it.m_fileNames name with
  | none => simp
  | some handle =>
    cases h2 : it.lineEdits[handle]? with
    | none => simp [h2]
    | some e => simp [h2]

theorem registered_of_hasLineEdit {qreal : Type} (it : NodeTreeItem qreal)
    (hreg : ∀ port ∈ it.getPorts, it.hasLineEdit port.jsonName = true) :
    ∀ port ∈ it.getPorts, ∃ handle lineEdit,
      QMap.value it.m_fileNames (QJsonObject.value port.argumentJson "name").toString
        = some handle ∧ it.lineEdits[handle]? = some lineEdit :=
  fun port hp => (hasLineEdit_iff it port.jsonName).mp (hreg port hp)

theorem run_registered_jsonName {qreal : Type} (node : Node qreal) (events : List ItemEvent)
    (hname : ∀ port ∈ node.ports, port.jsonName = port.name) :
    ∀ port ∈ (NodeTreeItem.run node events).getPorts, ∃ handle lineEdit,
      QMap.value (NodeTreeItem.run node events).m_fileNames
          (QJsonObject.value port.argumentJson "name").toString = some handle
        ∧ (NodeTreeItem.run node events).lineEdits[handle]? = some lineEdit := by
  intro port hp
  have hports : (NodeTreeItem.run node events).getPorts = node.ports := by
    unfold NodeTreeItem.getPorts; rw [(run_inv node events).node_eq]
  rw [hports] at hp
  have hjn : (QJsonObject.value port.argumentJson "name").toString = port.name := hname port hp
  rw [hjn]
  obtain ⟨j, q, e, -, hval, -, -, -, he⟩ := (run_registered node events port.name).1 port hp rfl
  exact ⟨j, e, hval, he⟩

theorem construct_getFileName {qreal : Type} (node : Node qreal) (i : Nat)
    (pair : PortPair qreal) (hpair : node.ports[i]? = some pair)
    (hlast : ∀ (k : Nat) (q : PortPair qreal), i < k → node.ports[k]? = some q →
      q.name ≠ pair.name) :
    (NodeTreeItem.construct node).getFileName pair.name
      = some (if pair.secret then "" else QString.left pair.fileName QLineEdit.maxLength,
          NodeTreeItem.construct node) := by
  obtain ⟨j, q, e, -, hval, hq, hqn, hlater, -⟩ :=
    (run_registered node [] pair.name).1 pair (List.getElem?_mem hpair) rfl
  have hji : j = i := by
    rcases Nat.lt_trichotomy j i with h | h | h
    · exact absurd rfl (hlater i pair h hpair)
    · exact h
    · exact absurd hqn (hlast j q h hq)
  subst hji
  obtain ⟨e2, he2, hte2⟩ := (construct_lineEdits node).2 j pair hpair
  rw [← hte2]
  exact getFileName_of_registered _ pair.name j e2 hval he2

/-! ## Dragging -/

theorem wrapInt32_spec (z : Int) :
    ∃ k : Int, wrapInt32 z = z + k * 4294967296 ∧ isInt32 (wrapInt32 z) := by
  refine ⟨-((z + 2147483648) / 4294967296), ?_, ?_⟩
  · unfold wrapInt32; omega
  · unfold isInt32 wrapInt32; omega

theorem mouseMoves_pos {qreal : Type} (ps : List QPoint) (it : NodeTreeItem qreal) :
    (ps.foldl (fun item p =>
        item.mouseMoveEvent { button := MouseButton.none, globalPos := p }) it).pos.x = it.pos.x
    ∧ ∃ k : Int,
        (ps.foldl (fun item p =>
          item.mouseMoveEvent { button := MouseButton.none, globalPos := p }) it).pos.y
          = it.pos.y + ((ps.getLastD it.m_startPosition).y - it.m_startPosition.y)
            + k * 4294967296
        ∧ (ps ≠ [] → isInt32 (ps.foldl (fun item p =>
          item.mouseMoveEvent { button := MouseButton.none, globalPos := p }) it).pos.y) := by
  induction ps generalizing it with
  | nil => exact ⟨rfl, 0, by simp, by simp⟩
  | cons p rest ih =>
    obtain ⟨hx, k, hy, hr⟩ :=
      ih (it.mouseMoveEvent { button := MouseButton.none, globalPos := p })
    obtain ⟨k1, hk1, -⟩ := wrapInt32_spec (p.y - it.m_startPosition.y)
    obtain ⟨k2, hk2, hin⟩ :=
      wrapInt32_spec (it.pos.y + wrapInt32 (p.y - it.m_startPosition.y))
    simp only [List.foldl_cons, List.getLastD_cons]
    refine ⟨by rw [hx]; rfl, k + k1 + k2, ?_, ?_⟩
    · rw [hy]
      simp only [NodeTreeItem.mouseMoveEvent, QPoint.sub]
      rw [hk2, hk1]; ring
    · intro _
      by_cases hrest : rest = []
      · subst hrest
        simpa [NodeTreeItem.mouseMoveEvent, QPoint.sub] using hin
      · exact hr hrest


/-! ## The claims -/

/-- C3: for every item state and every boolean `b`, after `setSelected(b)` the
selected flag is `b` and the style sheet is the border rule when `b` is true and
the empty string when `b` is false (the two differ); the flag and the style sheet
are the same whatever the state before the call, and calling `setSelected(b)`
twice leaves the state that one call leaves. -/
theorem setSelected_flag_and_style {qreal : Type} (it : NodeTreeItem qreal) (b : Bool) :
    (it.setSelected b).m_isSelected = b
    ∧ (it.setSelected b).styleSheet
        = (if b then "#myObject \x7bborder: 2px solid black;\x7d" else "")
    ∧ ((it.setSelected b).styleSheet = "#myObject \x7bborder: 2px solid black;\x7d" ↔ b = true)
    ∧ (∀ before : NodeTreeItem qreal,
        (before.setSelected b).m_isSelected = (it.setSelected b).m_isSelected
        ∧ (before.setSelected b).styleSheet = (it.setSelected b).styleSheet)
    ∧ (it.setSelected b).setSelected b = it.setSelected b := by
  cases b
  · refine ⟨rfl, rfl, ?_, fun _ => ⟨rfl, rfl⟩, rfl⟩
    simp [NodeTreeItem.setSelected]
  · refine ⟨rfl, rfl, ?_, fun _ => ⟨rfl, rfl⟩, rfl⟩
    simp [NodeTreeItem.setSelected]

/-- C5: `a.isAncestorOf(b)` returns `b.getNode()->hasAncestor(a.getNode())` and
leaves both items as they were; `getNode()` of an item is the node it was
constructed with, whatever happened to the item since; and the direction
matters: for some ancestry relation and items the result differs from
`a.getNode()->hasAncestor(b.getNode())`. -/
theorem isAncestorOf_asks_argument_node :
    (∀ (qreal : Type) (hasAncestor : Node qreal → Node qreal → Bool)
        (a b : NodeTreeItem qreal),
        a.isAncestorOf hasAncestor b = (hasAncestor b.getNode a.getNode, a, b))
    ∧ (∀ (qreal : Type) (node : Node qreal) (events : List ItemEvent),
        (NodeTreeItem.run node events).getNode = node)
    ∧ (∃ (hasAncestor : Node Int → Node Int → Bool) (a b : NodeTreeItem Int),
        (a.isAncestorOf hasAncestor b).1 ≠ hasAncestor a.getNode b.getNode) := by
  refine ⟨fun _ _ _ _ => rfl, fun _ node events => (run_inv node events).node_eq, ?_⟩
  refine ⟨fun n m => decide (n.address < m.address),
    NodeTreeItem.construct (sampleNode 1 []), NodeTreeItem.construct (sampleNode 2 []), ?_⟩
  decide

/-- C6 as stated fails: a fresh row (y = 0) pressed at y = -2147483648 and moved
to y = 2147483647 does not end at y = 0 + (2147483647 - (-2147483648)), a value
no `int` holds. -/
theorem drag_exact_sum_fails :
    ((NodeTreeItem.construct (sampleNode 1 [])).drag { x := 0, y := -2147483648 }
        [{ x := 0, y := 2147483647 }]).pos.y
      ≠ (NodeTreeItem.construct (sampleNode 1 [])).pos.y + (2147483647 - (-2147483648)) := by
  decide

/-- C6 (amended): for a left-button press at `p0` followed by mouse moves at
`ps`, the row's x coordinate is unchanged and its y coordinate is its y at press
time plus the vertical travel `pn.y - p0.y` (`pn` the last position, `p0` when
there is no move), provided that sum is representable as a 32-bit `int`; the
horizontal positions of the mouse do not occur in the result. -/
theorem drag_moves_row_by_vertical_travel {qreal : Type} (it : NodeTreeItem qreal)
    (p0 : QPoint) (ps : List QPoint)
    (hfit : isInt32 (it.pos.y + ((ps.getLastD p0).y - p0.y))) :
    (it.drag p0 ps).pos.x = it.pos.x
    ∧ (it.drag p0 ps).pos.y = it.pos.y + ((ps.getLastD p0).y - p0.y) := by
  have hpress : it.mousePressEvent { button := MouseButton.left, globalPos := p0 }
      = { it with m_startPosition := p0 } := by
    simp [NodeTreeItem.mousePressEvent]
  obtain ⟨hx, k, hy, hr⟩ := mouseMoves_pos ps { it with m_startPosition := p0 }
  unfold NodeTreeItem.drag
  rw [hpress]
  refine ⟨hx, ?_⟩
  rw [hy]
  by_cases hps : ps = []
  · subst hps
    simp at hy
    simp only [List.getLastD_nil] at *
    omega
  · have h1 := hr hps
    rw [hy] at h1
    unfold isInt32 at h1 hfit
    simp only at h1 hfit ⊢
    omega

/-- C6 (amended), at a press at (10, 20) followed by moves to (50, 25) and
(-3, 60) on a fresh row. -/
theorem drag_moves_row_by_vertical_travel_witness :
    ((NodeTreeItem.construct (sampleNode 1 [])).drag { x := 10, y := 20 }
        [{ x := 50, y := 25 }, { x := -3, y := 60 }]).pos.x
      = (NodeTreeItem.construct (sampleNode 1 [])).pos.x
    ∧ ((NodeTreeItem.construct (sampleNode 1 [])).drag { x := 10, y := 20 }
        [{ x := 50, y := 25 }, { x := -3, y := 60 }]).pos.y
      = (NodeTreeItem.construct (sampleNode 1 [])).pos.y
        + ((([{ x := 50, y := 25 }, { x := -3, y := 60 }] : List QPoint).getLastD
            { x := 10, y := 20 }).y - ({ x := 10, y := 20 } : QPoint).y) :=
  drag_moves_row_by_vertical_travel (NodeTreeItem.construct (sampleNode 1 []))
    { x := 10, y := 20 } [{ x := 50, y := 25 }, { x := -3, y := 60 }] (by decide)

/-- C1 as stated fails: in `twinNode` both port pairs are named "x" and each
argument JSON bears that name; after "typed in row 0" is entered in the first
row, the rows show "typed in row 0" and "second", yet both entries are saved
with the value "second", the text of the line edit that the second pair
registered over the first. -/
theorem saveToJson_saves_last_registered_text :
    decide (∀ port ∈ twinNode.ports, port.jsonName = port.name) = true
    ∧ ((NodeTreeItem.run twinNode [ItemEvent.rowSetText 0 "typed in row 0"]).saveToJson []).map
        (fun saved => savedValues saved.1) = some ["second", "second"]
    ∧ (NodeTreeItem.run twinNode [ItemEvent.rowSetText 0 "typed in row 0"]).rows.map
        (fun row => (row.label,
          ((NodeTreeItem.run twinNode
            [ItemEvent.rowSetText 0 "typed in row 0"]).lineEdits[row.fileName]?).map
              (fun lineEdit => lineEdit.text)))
        = [("x", some "typed in row 0"), ("x", some "second")] := by
  decide

/-- C1 (amended): for every item of a node in which each port's argument JSON
"name" equals the pair's `getName()`, whatever happened to the item since its
construction, `saveToJson` returns, and under "ports" it has written an array
with one entry per port pair, in `getPorts()` order (the i-th entry carries the
i-th pair's port addresses and flags), whose "value" is the text of the line
edit registered for the name in the argument JSON, which is what `getFileName`
returns for it; when no later port pair bears the same name, that is the text
of the line edit the constructor created for this very pair, shown in the
pair's row unless the pair is secret. -/
theorem saveToJson_ports_hold_line_edit_texts {qreal : Type} (node : Node qreal)
    (events : List ItemEvent) (o_json : QJsonObject qreal)
    (hname : ∀ port ∈ node.ports, port.jsonName = port.name) :
    (NodeTreeItem.run node events).getPorts = node.ports
    ∧ ∃ out ports,
      (NodeTreeItem.run node events).saveToJson o_json
        = some (out, NodeTreeItem.run node events)
      ∧ QJsonObject.value out "ports" = .array ports
      ∧ ports.length = (NodeTreeItem.run node events).getPorts.length
      ∧ ∀ (i : Nat) (port : PortPair qreal),
          (NodeTreeItem.run node events).getPorts[i]? = some port →
          ∃ entry text, ports[i]? = some (.object entry)
            ∧ (NodeTreeItem.run node events).getFileName port.jsonName
                = some (text, NodeTreeItem.run node events)
            ∧ QJsonObject.value entry "value" = .string text
            ∧ QJsonObject.value entry "inputPort" = .string (QString.number16 port.inputPort)
            ∧ QJsonObject.value entry "outputPort" = .string (QString.number16 port.outputPort)
            ∧ QJsonObject.value entry "visible" = .bool port.visible
            ∧ QJsonObject.value entry "iterator" = .bool port.iterator
            ∧ ((∀ (k : Nat) (q : PortPair qreal), i < k →
                  (NodeTreeItem.run node events).getPorts[k]? = some q → q.name ≠ port.name) →
                ∃ lineEdit, (NodeTreeItem.run node events).lineEdits[i]? = some lineEdit
                  ∧ lineEdit.text = text
                  ∧ (port.secret = false →
                      ∃ row ∈ (NodeTreeItem.run node events).rows,
                        row.fileName = i ∧ row.label = port.name)) := by
  have hinv := run_inv node events
  have hports : (NodeTreeItem.run node events).getPorts = node.ports := by
    unfold NodeTreeItem.getPorts; rw [hinv.node_eq]
  obtain ⟨entries, hsave, hlen, hall⟩ :=
    saveToJson_of_registered (NodeTreeItem.run node events) o_json
      (run_registered_jsonName node events hname)
  refine ⟨hports, _, entries, hsave, ?_, hlen, ?_⟩
  · simp [QJsonObject.value_assign, QJsonValue.isUndefined]
  · intro i port hp
    obtain ⟨entry, he, handle, lineEdit, h1, h2, hv, h3, h4, h5, h6⟩ := hall i port hp
    refine ⟨entry, lineEdit.text, he,
      getFileName_of_registered _ port.jsonName handle lineEdit h1 h2, hv, h3, h4, h5, h6, ?_⟩
    intro hlast
    rw [hports] at hp hlast
    have hmem := List.getElem?_mem hp
    have hjn : (QJsonObject.value port.argumentJson "name").toString = port.name :=
      hname port hmem
    rw [hjn] at h1
    obtain ⟨j, q, e, -, hval, hq, hqn, hlater, -⟩ :=
      (run_registered node events port.name).1 port hmem rfl
    have hji : j = i := by
      rcases Nat.lt_trichotomy j i with h | h | h
      · exact absurd rfl (hlater i port h hp)
      · exact h
      · exact absurd hqn (hlast j q h hq)
    subst hji
    rw [hval] at h1; cases h1
    exact ⟨lineEdit, h2, rfl, fun hs => hinv.rows_cover _ port hp hs⟩

/-- C9: for every item of a node in which each port's argument JSON "name" equals
the pair's `getName()` (the name its line edit is registered under), whatever
happened to the item since its construction, `saveToJson` returns with the
item unchanged; what `o_json` held on entry has no influence on the result;
"position" is the array of `pos().x()` and `pos().y()` in that order, "ports" is
an array, and every other key has the value it has in the node's `getJson()`. -/
theorem saveToJson_keeps_other_keys {qreal : Type} (node : Node qreal)
    (events : List ItemEvent) (o_json : QJsonObject qreal)
    (hname : ∀ port ∈ node.ports, port.jsonName = port.name) :
    ∃ out ports,
      (NodeTreeItem.run node events).saveToJson o_json
        = some (out, NodeTreeItem.run node events)
      ∧ (∀ other : QJsonObject qreal,
          (NodeTreeItem.run node events).saveToJson other
            = some (out, NodeTreeItem.run node events))
      ∧ (NodeTreeItem.run node events).getNode = node
      ∧ QJsonObject.value out "position" = .array [.double node.pos.1, .double node.pos.2]
      ∧ QJsonObject.value out "ports" = .array ports
      ∧ ∀ key : String, key ≠ "position" → key ≠ "ports" →
          QJsonObject.value out key = QJsonObject.value node.json key := by
  have hinv := run_inv node events
  obtain ⟨entries, hsave, -, -⟩ :=
    saveToJson_of_registered (NodeTreeItem.run node events) o_json
      (run_registered_jsonName node events hname)
  rw [hinv.node_eq] at hsave
  refine ⟨_, entries, hsave, fun other => ?_, hinv.node_eq, ?_, ?_, ?_⟩
  · rw [← hsave]; rfl
  · simp [QJsonObject.value_assign, QJsonValue.isUndefined]
  · simp [QJsonObject.value_assign, QJsonValue.isUndefined]
  · intro key h1 h2
    have h3 : ¬ "position" = key := fun h => h1 h.symm
    have h4 : ¬ "ports" = key := fun h => h2 h.symm
    simp [QJsonObject.value_assign, QJsonValue.isUndefined, h3, h4]

/-- C2 as stated fails: for the item constructed for a node whose only port pair
is secret and has the file name "mask.nii", `getFileName` of the pair's name is
the empty string; and for `longNameNode`, whose pair is not secret, it is not
the pair's file name of 40000 characters, which the line edit has cut. -/
theorem construct_secret_file_name_not_mirrored :
    ((NodeTreeItem.construct
        (sampleNode 1 [samplePort "mask" "mask.nii" true (sampleArgument "mask")])).getFileName
        (samplePort "mask" "mask.nii" true (sampleArgument "mask")).name).map Prod.fst
      = some ""
    ∧ (samplePort "mask" "mask.nii" true (sampleArgument "mask")).fileName ≠ ""
    ∧ ((NodeTreeItem.construct longNameNode).getFileName "in").map Prod.fst
      ≠ some longFileName := by
  refine ⟨by decide, by decide, ?_⟩
  have hget := construct_getFileName longNameNode 0
    (samplePort "in" longFileName false (sampleArgument "in")) rfl
    (by
      intro k q hk hq
      have hlt : k < 1 := (List.getElem?_eq_some.mp hq).1
      omega)
  have hname : (samplePort "in" longFileName false (sampleArgument "in")).name = "in" := rfl
  rw [hname] at hget
  rw [hget]
  simp only [Option.map_some']
  intro h
  have hcut : QString.left longFileName QLineEdit.maxLength = longFileName := by
    simpa [samplePort] using h
  have h1 := QString.size_left_le longFileName QLineEdit.maxLength
  rw [hcut] at h1
  have h2 : QString.size longFileName = 40000 := by
    have hu : QChar.units 'a' = 1 := by decide
    show ((List.replicate 40000 'a').map QChar.units).sum = 40000
    rw [List.map_replicate, List.sum_replicate, hu]
    simp only [smul_eq_mul, mul_one]
  rw [h2] at h1
  exact absurd h1 (by decide)

/-- C2 (amended): immediately after construction, for every port pair whose
name no later port pair of the node bears, `getFileName(pair->getName())` is the
empty string when the pair is secret and `pair->getFileName()` cut to the line
edit's `maxLength()` when it is not: the file name itself when it has at most
32767 UTF-16 code units. -/
theorem construct_mirrors_file_names {qreal : Type} (node : Node qreal) (i : Nat)
    (pair : PortPair qreal) (hpair : node.ports[i]? = some pair)
    (hlast : ∀ (k : Nat) (q : PortPair qreal), i < k → node.ports[k]? = some q →
      q.name ≠ pair.name) :
    (NodeTreeItem.construct node).getFileName pair.name
      = some (if pair.secret then "" else QString.left pair.fileName QLineEdit.maxLength,
          NodeTreeItem.construct node)
    ∧ QLineEdit.maxLength = 32767
    ∧ (pair.secret = false → QString.size pair.fileName ≤ QLineEdit.maxLength →
        (NodeTreeItem.construct node).getFileName pair.name
          = some (pair.fileName, NodeTreeItem.construct node)) := by
  have hget := construct_getFileName node i pair hpair hlast
  refine ⟨hget, rfl, ?_⟩
  intro hs hsize
  rw [hget, QString.left_of_size_le pair.fileName QLineEdit.maxLength hsize]
  simp [hs]

/-- C4: in every item reached from the constructor, `getFileName(name)` returns
the text of the line edit registered for `name` when the node has a port pair
of that name and the empty string when it has none; it returns in both cases,
and in any item whatever it leaves the item (the name-to-line-edit map
included) as it was. -/
theorem getFileName_text_or_empty {qreal : Type} (node : Node qreal)
    (events : List ItemEvent) (name : String) :
    ((∃ pair ∈ node.ports, pair.name = name) →
      ∃ handle lineEdit,
        QMap.value (NodeTreeItem.run node events).m_fileNames name = some handle
        ∧ (NodeTreeItem.run node events).lineEdits[handle]? = some lineEdit
        ∧ (NodeTreeItem.run node events).getFileName name
            = some (lineEdit.text, NodeTreeItem.run node events))
    ∧ ((∀ pair ∈ node.ports, pair.name ≠ name) →
        (NodeTreeItem.run node events).getFileName name
          = some ("", NodeTreeItem.run node events))
    ∧ (∀ (it : NodeTreeItem qreal) (text : String) (after : NodeTreeItem qreal),
        it.getFileName name = some (text, after) →
          after = it ∧ after.m_fileNames = it.m_fileNames) := by
  refine ⟨?_, ?_, ?_⟩
  · rintro ⟨pair, hmem, hn⟩
    obtain ⟨j, q, e, -, hval, -, -, -, he⟩ := (run_registered node events name).1 pair hmem hn
    exact ⟨j, e, hval, he, getFileName_of_registered _ name j e hval he⟩
  · intro hno
    have hval := (run_registered node events name).2 hno
    simp [NodeTreeItem.getFileName, hval]
  · intro it text after h
    unfold NodeTreeItem.getFileName at h
    cases h1 : QMap.value it.m_fileNames name with
    | none =>
      simp [h1] at h
      rw [← h.2]; exact ⟨rfl, rfl⟩
    | some handle =>
      cases h2 : it.lineEdits[handle]? with
      | none => simp [h1, h2] at h
      | some e =>
        simp [h1, h2] at h
        rw [← h.2]; exact ⟨rfl, rfl⟩

/-- C8 as stated fails in its last part: in `sharedNameNode` every argument JSON
bears its pair's name, yet the secret pair is serialized with the value
"id_rsa", the text of the line edit that the later pair of the same name
registered over it. -/
theorem saveToJson_secret_value_not_empty :
    decide (∀ port ∈ sharedNameNode.ports, port.jsonName = port.name) = true
    ∧ ((NodeTreeItem.construct sharedNameNode).saveToJson []).map
        (fun saved => savedValues saved.1) = some ["id_rsa", "id_rsa"]
    ∧ sharedNameNode.ports.map (fun port => port.secret) = [true, false] := by
  decide

/-- C8 (amended): the constructor registers a line edit for every port pair,
secret ones included, and nothing that happens to the item afterwards removes
one; so for every node in which each port's argument JSON "name" equals the
pair's `getName()`, `saveToJson` finds a line edit at every lookup and returns,
and a secret port pair is serialized with the empty string as its "value"
provided every later port pair of the same name is secret too. -/
theorem saveToJson_finds_every_line_edit {qreal : Type} (node : Node qreal)
    (events : List ItemEvent) (o_json : QJsonObject qreal)
    (hname : ∀ port ∈ node.ports, port.jsonName = port.name) :
    (∀ port ∈ node.ports, (NodeTreeItem.run node events).hasLineEdit port.name = true)
    ∧ (∀ port ∈ node.ports, (NodeTreeItem.run node events).hasLineEdit port.jsonName = true)
    ∧ ∃ out ports,
        (NodeTreeItem.run node events).saveToJson o_json
          = some (out, NodeTreeItem.run node events)
        ∧ QJsonObject.value out "ports" = .array ports
        ∧ ∀ (i : Nat) (port : PortPair qreal), node.ports[i]? = some port →
            port.secret = true →
            (∀ (k : Nat) (q : PortPair qreal), i < k → node.ports[k]? = some q →
              q.name = port.name → q.secret = true) →
            ∃ entry, ports[i]? = some (.object entry)
              ∧ QJsonObject.value entry "value" = .string "" := by
  have hinv := run_inv node events
  have hports : (NodeTreeItem.run node events).getPorts = node.ports := by
    unfold NodeTreeItem.getPorts; rw [hinv.node_eq]
  have hreg1 : ∀ port ∈ node.ports,
      (NodeTreeItem.run node events).hasLineEdit port.name = true := by
    intro port hp
    obtain ⟨j, q, e, -, hval, -, -, -, he⟩ := (run_registered node events port.name).1 port hp rfl
    exact (hasLineEdit_iff _ _).mpr ⟨j, e, hval, he⟩
  have hreg2 : ∀ port ∈ node.ports,
      (NodeTreeItem.run node events).hasLineEdit port.jsonName = true := by
    intro port hp
    rw [hname port hp]; exact hreg1 port hp
  obtain ⟨entries, hsave, -, hall⟩ :=
    saveToJson_of_registered (NodeTreeItem.run node events) o_json
      (registered_of_hasLineEdit _ (by rw [hports]; exact hreg2))
  refine ⟨hreg1, hreg2, _, entries, hsave, ?_, ?_⟩
  · simp [QJsonObject.value_assign, QJsonValue.isUndefined]
  · intro i port hp hsecret hlater
    obtain ⟨entry, he, handle, lineEdit, h1, h2, hv, -⟩ := hall i port (by rw [hports]; exact hp)
    have hmem := List.getElem?_mem hp
    have hjn : (QJsonObject.value port.argumentJson "name").toString = port.name :=
      hname port hmem
    rw [hjn] at h1
    obtain ⟨j, q, e, -, hval, hq, hqn, hnone, -⟩ :=
      (run_registered node events port.name).1 port hmem rfl
    have hqs : q.secret = true := by
      rcases Nat.lt_trichotomy j i with h | h | h
      · exact absurd rfl (hnone i port h hp)
      · subst h
        rw [hp] at hq; cases hq; exact hsecret
      · exact hlater j q h hq hqn
    obtain ⟨e2, he2, hte2⟩ := hinv.secret_empty j q hq hqs
    rw [hval] at h1; cases h1
    rw [he2] at h2; cases h2
    exact ⟨entry, he, by rw [hv, hte2]⟩

/-- C8 (amended), at the item of `twoPortNode` after an edit of its first row. -/
theorem saveToJson_finds_every_line_edit_witness :
    (∀ port ∈ twoPortNode.ports,
      (NodeTreeItem.run twoPortNode [ItemEvent.rowSetText 0 "other.nii"]).hasLineEdit port.name
        = true)
    ∧ (∀ port ∈ twoPortNode.ports,
      (NodeTreeItem.run twoPortNode [ItemEvent.rowSetText 0 "other.nii"]).hasLineEdit
        port.jsonName = true)
    ∧ ∃ out ports,
        (NodeTreeItem.run twoPortNode [ItemEvent.rowSetText 0 "other.nii"]).saveToJson []
          = some (out, NodeTreeItem.run twoPortNode [ItemEvent.rowSetText 0 "other.nii"])
        ∧ QJsonObject.value out "ports" = .array ports
        ∧ ∀ (i : Nat) (port : PortPair Int), twoPortNode.ports[i]? = some port →
            port.secret = true →
            (∀ (k : Nat) (q : PortPair Int), i < k → twoPortNode.ports[k]? = some q →
              q.name = port.name → q.secret = true) →
            ∃ entry, ports[i]? = some (.object entry)
              ∧ QJsonObject.value entry "value" = .string "" :=
  saveToJson_finds_every_line_edit twoPortNode [ItemEvent.rowSetText 0 "other.nii"] []
    (by decide)

/-- C1 (amended), at `twoPortNode` after "other.nii" is entered in its first
row: the entries are saved with "other.nii" and "", while the pairs' stored file
names are "scan.nii" and "abc". -/
theorem saveToJson_ports_hold_line_edit_texts_witness :
    (editedItem.saveToJson []).map (fun saved => savedValues saved.1)
      = some ["other.nii", ""]
    ∧ editedItem.getPorts.map (fun port => port.fileName) = ["scan.nii", "abc"]
    ∧ (NodeTreeItem.run twoPortNode [ItemEvent.rowSetText 0 "other.nii"]).getPorts
      = twoPortNode.ports
    ∧ ∃ out ports,
      (NodeTreeItem.run twoPortNode [ItemEvent.rowSetText 0 "other.nii"]).saveToJson []
        = some (out, NodeTreeItem.run twoPortNode [ItemEvent.rowSetText 0 "other.nii"])
      ∧ QJsonObject.value out "ports" = .array ports
      ∧ ports.length
        = (NodeTreeItem.run twoPortNode [ItemEvent.rowSetText 0 "other.nii"]).getPorts.length
      ∧ ∀ (i : Nat) (port : PortPair Int),
          (NodeTreeItem.run twoPortNode [ItemEvent.rowSetText 0 "other.nii"]).getPorts[i]?
            = some port →
          ∃ entry text, ports[i]? = some (.object entry)
            ∧ (NodeTreeItem.run twoPortNode [ItemEvent.rowSetText 0 "other.nii"]).getFileName
                port.jsonName
                = some (text, NodeTreeItem.run twoPortNode [ItemEvent.rowSetText 0 "other.nii"])
            ∧ QJsonObject.value entry "value" = .string text
            ∧ QJsonObject.value entry "inputPort" = .string (QString.number16 port.inputPort)
            ∧ QJsonObject.value entry "outputPort" = .string (QString.number16 port.outputPort)
            ∧ QJsonObject.value entry "visible" = .bool port.visible
            ∧ QJsonObject.value entry "iterator" = .bool port.iterator
            ∧ ((∀ (k : Nat) (q : PortPair Int), i < k →
                  (NodeTreeItem.run twoPortNode
                    [ItemEvent.rowSetText 0 "other.nii"]).getPorts[k]? = some q →
                  q.name ≠ port.name) →
                ∃ lineEdit,
                  (NodeTreeItem.run twoPortNode
                    [ItemEvent.rowSetText 0 "other.nii"]).lineEdits[i]? = some lineEdit
                  ∧ lineEdit.text = text
                  ∧ (port.secret = false →
                      ∃ row ∈ (NodeTreeItem.run twoPortNode
                          [ItemEvent.rowSetText 0 "other.nii"]).rows,
                        row.fileName = i ∧ row.label = port.name)) :=
  ⟨by decide, by decide,
    saveToJson_ports_hold_line_edit_texts twoPortNode [ItemEvent.rowSetText 0 "other.nii"] []
      (by decide)⟩

/-- C9, at `twoPortNode` after an edit of its first row and an `o_json` that
holds a stale member. -/
theorem saveToJson_keeps_other_keys_witness :
    ∃ out ports,
      (NodeTreeItem.run twoPortNode [ItemEvent.rowSetText 0 "other.nii"]).saveToJson
          [("stale", .null)]
        = some (out, NodeTreeItem.run twoPortNode [ItemEvent.rowSetText 0 "other.nii"])
      ∧ (∀ other : QJsonObject Int,
          (NodeTreeItem.run twoPortNode [ItemEvent.rowSetText 0 "other.nii"]).saveToJson other
            = some (out, NodeTreeItem.run twoPortNode [ItemEvent.rowSetText 0 "other.nii"]))
      ∧ (NodeTreeItem.run twoPortNode [ItemEvent.rowSetText 0 "other.nii"]).getNode
        = twoPortNode
      ∧ QJsonObject.value out "position"
        = .array [.double twoPortNode.pos.1, .double twoPortNode.pos.2]
      ∧ QJsonObject.value out "ports" = .array ports
      ∧ ∀ key : String, key ≠ "position" → key ≠ "ports" →
          QJsonObject.value out key = QJsonObject.value twoPortNode.json key :=
  saveToJson_keeps_other_keys twoPortNode [ItemEvent.rowSetText 0 "other.nii"]
    [("stale", .null)] (by decide)

/-- C2 (amended), at the first port pair of `twoPortNode`: it is not secret, the
only later pair has another name, its file name is short, and the line edit
holds it. -/
theorem construct_mirrors_file_names_witness :
    (QString.size (samplePort "in" "scan.nii" false (sampleArgument "in")).fileName
        ≤ QLineEdit.maxLength
      ∧ (NodeTreeItem.construct twoPortNode).getFileName
          (samplePort "in" "scan.nii" false (sampleArgument "in")).name
        = some ((samplePort "in" "scan.nii" false (sampleArgument "in")).fileName,
            NodeTreeItem.construct twoPortNode)) :=
  ⟨by decide,
    (construct_mirrors_file_names twoPortNode 0
      (samplePort "in" "scan.nii" false (sampleArgument "in")) rfl
      (by
        intro k q hk hq hn
        have hlt : k < 2 := (List.getElem?_eq_some.mp hq).1
        have hk1 : k = 1 := by omega
        subst hk1
        have hq2 : q = samplePort "token" "abc" true (sampleArgument "token") := by
          have h1 : twoPortNode.ports[1]?
              = some (samplePort "token" "abc" true (sampleArgument "token")) := rfl
          rw [h1] at hq
          exact (Option.some.inj hq).symm
        subst hq2
        exact absurd hn (by decide))).2.2 rfl (by decide)⟩

end Porcupine
